import Mathlib

/-!
Verification of the Source-Graph ingestion backend.

This file gives a shallow embedding, in Lean, of the parts of the Python
backend that the verified properties talk about:

* `backend/bsky/models.py` — the `Post`, `PostMetrics` and `Edge` records;
* `backend/bsky/normalize.py` — `parse_timestamp`, `normalize_post`,
  `normalize_thread_node` / `extract_thread_posts_and_edges`,
  `extract_quote_edges`, `deduplicate_posts`, `deduplicate_edges`;
* `backend/bsky/client.py` — the budget / cache / retry state machine of
  `BlueskyClient.get`;
* `backend/bsky/ingest.py` — the seed-mode accumulation loop;
* `backend/app/services/runs_service.py` — `_build_graph`.

Modelling conventions:

* timestamps are abstract integers (`Timestamp := Int`); the standard-library
  parser `datetime.fromisoformat` is an external library function and is
  passed in as a parameter `fromIso : String → Option Timestamp`, while
  `datetime.now()` is passed in as a parameter `now : Timestamp`;
* Python `dict`s keyed by strings are association lists with Python's
  update-in-place / append-new-key semantics (`dictSet`);
* Python string truthiness (`if not s:`) treats both a missing value and the
  empty string as false (`pyTruthy`);
* the network and the Redis cache are passed in as explicit environments;
  sleeps, logging and backoff arithmetic are timing-only effects with no
  influence on any counter or result and are not part of the state.
-/

namespace SourceGraph

abbrev Timestamp := Int

/-- Truthiness of an optional Python string: `None` and `""` are falsy. -/
def pyTruthy : Option String → Bool
  | none => false
  | some s => s ≠ ""

/-- Python `a or b` on optional strings: yields `a` when `a` is truthy,
otherwise `b` (which may itself be falsy). -/
def pyOr (a b : Option String) : Option String :=
  if pyTruthy a then a else b

/-! ### Data model (`backend/bsky/models.py`) -/

/-- `PostMetrics` of `models.py`: the four engagement counters. -/
structure PostMetrics where
  like_count : Int := 0
  repost_count : Int := 0
  reply_count : Int := 0
  quote_count : Int := 0
deriving Repr, DecidableEq

/-- `Post` of `models.py`. Python equality and hashing use only `uri`. -/
structure Post where
  uri : String
  cid : Option String := none
  author_did : String
  author_handle : String
  created_at : Timestamp
  text : String := ""
  metrics : PostMetrics := {}
deriving Repr, DecidableEq

inductive EdgeType where
  | QUOTE
  | REPLY
deriving Repr, DecidableEq

/-- `Edge` of `models.py`. Python equality and hashing use only the
`(src_uri, dst_uri, edge_type)` triple; `created_at` is not part of
identity. -/
structure Edge where
  src_uri : String
  dst_uri : String
  edge_type : EdgeType
  created_at : Option Timestamp := none
deriving Repr, DecidableEq

/-- The identity triple that `Edge.__eq__` / `Edge.__hash__` compare. -/
def Edge.key (e : Edge) : String × String × EdgeType :=
  (e.src_uri, e.dst_uri, e.edge_type)

/-! ### Python dictionaries keyed by strings

`dictSet d k v` models `d[k] = v`: when `k` is already a key its value is
replaced in place (the key keeps its position), otherwise `(k, v)` is
appended.  `dictGetD d k v₀` models `d.get(k, v₀)`.  `d.map (·.2)` models
`list(d.values())` and `d.length` models `len(d)` (the dictionaries built
here always have distinct keys). -/

def dictSet {α : Type} (d : List (String × α)) (k : String) (v : α) :
    List (String × α) :=
  if d.any (fun kv => kv.1 = k) then
    d.map (fun kv => if kv.1 = k then (k, v) else kv)
  else
    d ++ [(k, v)]

def dictGetD {α : Type} (d : List (String × α)) (k : String) (v₀ : α) : α :=
  match d.find? (fun kv => kv.1 = k) with
  | some kv => kv.2
  | none => v₀

/-! ### Deduplication (`backend/bsky/normalize.py`, lines 185–207) -/

/-- The loop body of `deduplicate_posts`: a `seen` set of URIs, appending
each post whose URI has not been seen. -/
def dedupPostsAux (seen : List String) : List Post → List Post
  | [] => []
  | p :: rest =>
    if p.uri ∈ seen then dedupPostsAux seen rest
    else p :: dedupPostsAux (p.uri :: seen) rest

/-- `deduplicate_posts` of `normalize.py`. -/
def deduplicate_posts (posts : List Post) : List Post :=
  dedupPostsAux [] posts

/-- The loop body of `deduplicate_edges`: a `seen` set of identity triples. -/
def dedupEdgesAux (seen : List (String × String × EdgeType)) :
    List Edge → List Edge
  | [] => []
  | e :: rest =>
    if e.key ∈ seen then dedupEdgesAux seen rest
    else e :: dedupEdgesAux (e.key :: seen) rest

/-- `deduplicate_edges` of `normalize.py`. -/
def deduplicate_edges (edges : List Edge) : List Edge :=
  dedupEdgesAux [] edges

/-! Specification-side restatements of deduplication, following the spec's
words: "keeps first occurrence per key, preserving original order" — the
first element is kept, all its later duplicates are removed, and the rest is
deduplicated recursively. -/

/-- Modelled from the spec: "`deduplicate_posts` keeps first occurrence per
URI, preserving original order". -/
def specDedupPosts : List Post → List Post
  | [] => []
  | p :: rest =>
    p :: specDedupPosts (rest.filter (fun q => q.uri ≠ p.uri))
termination_by l => l.length
decreasing_by
  simp only [List.length_cons]
  exact Nat.lt_succ_of_le (List.length_filter_le _ _)

/-- Modelled from the spec: "`deduplicate_edges` keeps first occurrence per
(src, dst, type) triple, preserving original order". -/
def specDedupEdges : List Edge → List Edge
  | [] => []
  | e :: rest =>
    e :: specDedupEdges (rest.filter (fun f => f.key ≠ e.key))
termination_by l => l.length
decreasing_by
  simp only [List.length_cons]
  exact Nat.lt_succ_of_le (List.length_filter_le _ _)

/-! ### Raw payloads and `normalize_post` (`normalize.py`, lines 10–68) -/

/-- The `author` sub-object of a raw post payload. -/
structure RawAuthor where
  did : Option String := none
  handle : Option String := none
deriving Repr, DecidableEq

/-- The `record` sub-object of a raw post payload. -/
structure RawRecord where
  text : Option String := none
  createdAt : Option String := none
deriving Repr, DecidableEq

/-- The fields of a raw post payload that `normalize_post` reads. -/
structure RawPost where
  uri : Option String := none
  cid : Option String := none
  author : Option RawAuthor := none
  record : Option RawRecord := none
  indexedAt : Option String := none
  likeCount : Option Int := none
  repostCount : Option Int := none
  replyCount : Option Int := none
  quoteCount : Option Int := none
deriving Repr, DecidableEq

/-- `parse_timestamp` of `normalize.py`: falsy input gives `None`; a trailing
`"Z"` is rewritten to `"+00:00"`; then `datetime.fromisoformat` (the
parameter `fromIso`, returning `none` where Python raises) is applied.
Python's `endswith("Z")` and `[:-1]` are character-based, so they are
modelled on the string's character list. -/
def parse_timestamp (fromIso : String → Option Timestamp)
    (timestamp_str : Option String) : Option Timestamp :=
  if ¬ pyTruthy timestamp_str then none
  else
    let s := timestamp_str.getD ""
    let s :=
      if s.data.getLast? = some 'Z' then String.mk s.data.dropLast ++ "+00:00"
      else s
    fromIso s

/-- `normalize_post` of `normalize.py`.  `now` stands for `datetime.now()`,
used when neither timestamp string yields a parse. -/
def normalize_post (fromIso : String → Option Timestamp) (now : Timestamp)
    (post_data : RawPost) : Option Post :=
  if ¬ pyTruthy post_data.uri then none
  else
    let uri := post_data.uri.getD ""
    let cid := post_data.cid
    let author := post_data.author.getD {}
    if ¬ pyTruthy author.did ∨ ¬ pyTruthy author.handle then none
    else
      let record := post_data.record.getD {}
      let text := record.text.getD ""
      let created_at_str := pyOr record.createdAt post_data.indexedAt
      let created_at :=
        match parse_timestamp fromIso created_at_str with
        | some t => t
        | none => now
      let metrics : PostMetrics :=
        { like_count := post_data.likeCount.getD 0
          repost_count := post_data.repostCount.getD 0
          reply_count := post_data.replyCount.getD 0
          quote_count := post_data.quoteCount.getD 0 }
      some
        { uri := uri
          cid := cid
          author_did := author.did.getD ""
          author_handle := author.handle.getD ""
          created_at := created_at
          text := text
          metrics := metrics }

/-! ### Thread traversal (`normalize.py`, lines 73–157) -/

/-- A node of the tagged thread tree returned by `getPostThread`.
`threadViewPost` carries an optional post body, an optional parent node and
a list of reply nodes; the other tags terminate traversal. -/
inductive ThreadNode where
  | threadViewPost (post : Option RawPost) (parent : Option ThreadNode)
      (replies : List ThreadNode)
  | blockedPost
  | notFoundPost
  | unknown
deriving Repr

/-- State threaded through the traversal: the posts dictionary (keyed by
URI) and the edge list, mutated in place by the Python code. -/
abbrev ThreadState := List (String × Post) × List Edge

mutual

/-- `normalize_thread_node` of `normalize.py`.  Returns the URI of the
processed post (the Python return value) together with the updated state. -/
def normalize_thread_node (fromIso : String → Option Timestamp)
    (now : Timestamp) (node : ThreadNode) (st : ThreadState)
    (parent_uri : Option String) (max_depth : Nat) (current_depth : Nat) :
    Option String × ThreadState :=
  if h : current_depth ≥ max_depth then (none, st)
  else
    match node with
    | .threadViewPost post_data parent replies =>
      match post_data with
      | none => (none, st)
      | some pd =>
        match normalize_post fromIso now pd with
        | none => (none, st)
        | some post =>
          let posts := dictSet st.1 post.uri post
          let edges := st.2
          let edges :=
            if pyTruthy parent_uri then
              let edge : Edge :=
                { src_uri := post.uri
                  dst_uri := parent_uri.getD ""
                  edge_type := .REPLY
                  created_at := some post.created_at }
              if edges.any (fun e => e.key = edge.key) then edges
              else edges ++ [edge]
            else edges
          let st :=
            match parent with
            | some parent_node =>
              (normalize_thread_node fromIso now parent_node (posts, edges)
                (some post.uri) max_depth (current_depth + 1)).2
            | none => (posts, edges)
          let st :=
            normalize_thread_replies fromIso now replies st
              (some post.uri) max_depth (current_depth + 1)
          (some post.uri, st)
    | .blockedPost => (none, st)
    | .notFoundPost => (none, st)
    | .unknown => (none, st)
termination_by ((max_depth - current_depth) * 2 + 1, 0)
decreasing_by
  all_goals simp_wf
  all_goals omega

/-- The `for reply_node in replies:` loop of `normalize_thread_node`; each
child is processed at depth `current_depth + 1` of its parent, which is the
`child_depth` received here. -/
def normalize_thread_replies (fromIso : String → Option Timestamp)
    (now : Timestamp) (replies : List ThreadNode) (st : ThreadState)
    (parent_uri : Option String) (max_depth : Nat) (child_depth : Nat) :
    ThreadState :=
  match replies with
  | [] => st
  | r :: rest =>
    let st :=
      (normalize_thread_node fromIso now r st parent_uri max_depth
        child_depth).2
    normalize_thread_replies fromIso now rest st parent_uri max_depth
      child_depth
termination_by ((max_depth - child_depth) * 2 + 2, replies.length)
decreasing_by
  all_goals simp_wf
  all_goals omega

end

/-- `extract_thread_posts_and_edges` of `normalize.py`.  The `thread` field
of the response is an `Option`; a missing field yields empty results. -/
def extract_thread_posts_and_edges (fromIso : String → Option Timestamp)
    (now : Timestamp) (thread_response : Option ThreadNode)
    (max_depth : Nat) : ThreadState :=
  match thread_response with
  | none => ([], [])
  | some thread =>
    (normalize_thread_node fromIso now thread ([], []) none max_depth 0).2

/-! ### Quote extraction (`normalize.py`, lines 160–182) -/

/-- `extract_quote_edges` of `normalize.py`: each raw quote post that
normalizes successfully contributes the post and one QUOTE edge from it to
`target_uri`; failures are skipped. -/
def extract_quote_edges (fromIso : String → Option Timestamp)
    (now : Timestamp) (quote_posts : List RawPost) (target_uri : String) :
    List Post × List Edge :=
  match quote_posts with
  | [] => ([], [])
  | pd :: rest =>
    let (posts, edges) := extract_quote_edges fromIso now rest target_uri
    match normalize_post fromIso now pd with
    | none => (posts, edges)
    | some post =>
      (post :: posts,
        { src_uri := post.uri
          dst_uri := target_uri
          edge_type := .QUOTE
          created_at := some post.created_at } :: edges)

/-! ### The budgeted retrying client (`backend/bsky/client.py`)

`BlueskyClient.get` is modelled as a state machine over the client's mutable
counters.  The Redis cache is the parameter `cached : Option π` (the value
`_get_from_cache` would return: `none` covers a disabled cache, a read error
and a missing entry, in all of which no counter changes).  The network is the
parameter `env : Nat → NetOutcome π`, giving the outcome of the attempt with
each index.  Sleeping, jitter and the backoff value influence timing only and
are not part of the state; `_set_cache` on success writes to Redis and
changes no counter. -/

/-- `RequestStats` of `client.py`. -/
structure RequestStats where
  total_requests : Nat := 0
  cache_hits : Nat := 0
  cache_misses : Nat := 0
  failed_requests : Nat := 0
deriving Repr, DecidableEq

/-- The configuration fields of `IngestConfig` that drive `get`. -/
structure ClientConfig where
  max_retries : Nat := 3
  max_requests_per_run : Nat := 500
deriving Repr, DecidableEq

/-- The mutable counters of one `BlueskyClient` instance. -/
structure ClientState where
  stats : RequestStats := {}
  request_count : Nat := 0
deriving Repr, DecidableEq

/-- Outcome of one network attempt: HTTP 429, an HTTP 5xx, any other
`httpx.HTTPError` (a non-retryable status raised by `raise_for_status` or a
transport error), or a parsed successful payload. -/
inductive NetOutcome (π : Type) where
  | rateLimited
  | serverError
  | failure
  | ok (payload : π)
deriving Repr, DecidableEq

/-- The `RuntimeError`s that `get` can raise. -/
inductive GetError where
  | budgetExhausted
  | maxRetriesReached
  | attemptsExhausted
deriving Repr, DecidableEq

/-- `_get_from_cache` of `client.py`: on a hit, increments `cache_hits` and
returns the payload; otherwise changes nothing. -/
def getFromCache {π : Type} (st : ClientState) (cached : Option π) :
    Option π × ClientState :=
  match cached with
  | some v =>
    (some v,
      { st with stats := { st.stats with cache_hits := st.stats.cache_hits + 1 } })
  | none => (none, st)

/-- The `while attempt < self.config.max_retries:` retry loop of `get`.
Every iteration increments `_request_count` and `stats.total_requests`
before the network call; 429/5xx outcomes retry, other HTTP errors increment
`stats.failed_requests` and retry unless this was the final attempt, a
success returns the payload (and writes it to the cache, a no-op on the
counters).  Falling out of the loop raises. -/
def getLoop {π : Type} (cfg : ClientConfig) (env : Nat → NetOutcome π)
    (attempt : Nat) (st : ClientState) :
    Except GetError π × ClientState :=
  if h : attempt < cfg.max_retries then
    let st :=
      { st with
        request_count := st.request_count + 1
        stats := { st.stats with total_requests := st.stats.total_requests + 1 } }
    match env attempt with
    | .rateLimited => getLoop cfg env (attempt + 1) st
    | .serverError => getLoop cfg env (attempt + 1) st
    | .ok v => (.ok v, st)
    | .failure =>
      let st :=
        { st with
          stats := { st.stats with failed_requests := st.stats.failed_requests + 1 } }
      if attempt ≥ cfg.max_retries - 1 then (.error .maxRetriesReached, st)
      else getLoop cfg env (attempt + 1) st
  else (.error .attemptsExhausted, st)
termination_by cfg.max_retries - attempt
decreasing_by
  all_goals omega

/-- `BlueskyClient.get`: `_check_budget` first (raising without touching the
network, the cache or any counter), then the cache, then on a miss the retry
loop starting at attempt 0. -/
def BlueskyClient.get {π : Type} (cfg : ClientConfig) (st : ClientState)
    (cached : Option π) (env : Nat → NetOutcome π) :
    Except GetError π × ClientState :=
  if st.request_count ≥ cfg.max_requests_per_run then
    (.error .budgetExhausted, st)
  else
    match getFromCache st cached with
    | (some v, st) => (.ok v, st)
    | (none, st) =>
      let st :=
        { st with
          stats := { st.stats with cache_misses := st.stats.cache_misses + 1 } }
      getLoop cfg env 0 st

/-- `BlueskyClient.get_remaining_budget`; Python's `max(0, cap - count)` is
truncated subtraction on `Nat`. -/
def get_remaining_budget (cfg : ClientConfig) (st : ClientState) : Nat :=
  cfg.max_requests_per_run - st.request_count

/-- The number of network attempts the retry loop performs when entered at
`attempt` (ghost instrumentation mirroring `getLoop`, used to state that the
counters increase exactly once per network call). -/
def attemptsUsed {π : Type} (cfg : ClientConfig) (env : Nat → NetOutcome π)
    (attempt : Nat) : Nat :=
  if attempt < cfg.max_retries then
    match env attempt with
    | .rateLimited => 1 + attemptsUsed cfg env (attempt + 1)
    | .serverError => 1 + attemptsUsed cfg env (attempt + 1)
    | .ok _ => 1
    | .failure =>
      if attempt ≥ cfg.max_retries - 1 then 1
      else 1 + attemptsUsed cfg env (attempt + 1)
  else 0
termination_by cfg.max_retries - attempt
decreasing_by
  all_goals omega

/-- The number of network calls one `get` performs: zero when the budget
check fails or the cache answers, otherwise the retry loop's attempts. -/
def networkCalls {π : Type} (cfg : ClientConfig) (st : ClientState)
    (cached : Option π) (env : Nat → NetOutcome π) : Nat :=
  if st.request_count ≥ cfg.max_requests_per_run then 0
  else
    match cached with
    | some _ => 0
    | none => attemptsUsed cfg env 0

/-- A sequence of `get` calls on one client, each with its own cache answer
and network environment; payloads and errors are discarded, the counters
accumulate. -/
def runGets {π : Type} (cfg : ClientConfig) :
    List (Option π × (Nat → NetOutcome π)) → ClientState → ClientState
  | [], st => st
  | (cached, env) :: rest, st =>
    runGets cfg rest (BlueskyClient.get cfg st cached env).2

/-! ### Seed-mode ingestion (`backend/bsky/ingest.py`, lines 91–213)

The network side of `seed_mode` is passed in as data: `threadFetch` is the
`thread` field of the `getPostThread` response (`none` also covers the
logged-and-swallowed fetch failure, which leaves the accumulators empty),
and `pages` lists the successive `getQuotes` responses, where a `none` entry
models a per-page fetch error (which breaks the pagination loop).  Each page
records whether a continuation cursor was returned and whether the remaining
request budget had dropped below 10 after the fetch. -/

/-- One `getQuotes` response page. -/
structure QuotePage where
  posts : List RawPost
  cursor : Bool
  budgetLow : Bool

/-- The `for post in quote_posts:` loop of `seed_mode`: insert posts into
the accumulator, breaking as soon as `len(all_posts)` has reached
`max_nodes` (checked before each insertion). -/
def seedInsertQuotePosts (max_nodes : Nat) (acc : List (String × Post)) :
    List Post → List (String × Post)
  | [] => acc
  | p :: rest =>
    if acc.length ≥ max_nodes then acc
    else seedInsertQuotePosts max_nodes (dictSet acc p.uri p) rest

/-- The `while quote_pages_fetched < inputs.max_quote_pages:` loop of
`seed_mode`.  An exhausted or erroring page stream breaks; after a processed
page the loop re-checks, in order, the cursor, the remaining budget and the
node cap. -/
def seedQuoteLoop (fromIso : String → Option Timestamp) (now : Timestamp)
    (seed_uri : String) (max_quote_pages max_nodes : Nat) :
    List (Option QuotePage) → Nat → List (String × Post) → List Edge →
    List (String × Post) × List Edge
  | pages, pages_fetched, acc, edges =>
    if pages_fetched < max_quote_pages then
      match pages with
      | [] => (acc, edges)
      | none :: _ => (acc, edges)
      | some page :: rest =>
        let qr := extract_quote_edges fromIso now page.posts seed_uri
        let acc := seedInsertQuotePosts max_nodes acc qr.1
        let edges := edges ++ qr.2
        if ¬ page.cursor then (acc, edges)
        else if page.budgetLow then (acc, edges)
        else if acc.length ≥ max_nodes then (acc, edges)
        else
          seedQuoteLoop fromIso now seed_uri max_quote_pages max_nodes rest
            (pages_fetched + 1) acc edges
    else (acc, edges)

/-- The inputs of `SeedModeInputs` that drive the accumulation. -/
structure SeedModeInputs where
  seed_uri : String
  max_depth : Nat := 2
  max_quote_pages : Nat := 3
  max_nodes : Nat := 500

/-- `seed_mode` of `ingest.py`, reduced to its post/edge accumulation: the
thread is extracted and merged (`all_posts.update(thread_posts)` on an empty
dictionary), the early exit fires when the thread alone reaches the node
cap, otherwise the quote loop runs; either way the edges are deduplicated
and the post values are truncated to `max_nodes`. -/
def seed_mode (inputs : SeedModeInputs)
    (fromIso : String → Option Timestamp) (now : Timestamp)
    (threadFetch : Option ThreadNode) (pages : List (Option QuotePage)) :
    List Post × List Edge :=
  let tr :=
    extract_thread_posts_and_edges fromIso now threadFetch inputs.max_depth
  let all_posts :=
    tr.1.foldl (fun d kv => dictSet d kv.1 kv.2) []
  let all_edges := tr.2
  if all_posts.length ≥ inputs.max_nodes then
    ((all_posts.map (fun kv => kv.2)).take inputs.max_nodes,
      deduplicate_edges all_edges)
  else
    let r :=
      seedQuoteLoop fromIso now inputs.seed_uri inputs.max_quote_pages
        inputs.max_nodes pages 0 all_posts all_edges
    ((r.1.map (fun kv => kv.2)).take inputs.max_nodes,
      deduplicate_edges r.2)

/-! ### Graph assembly (`backend/app/services/runs_service.py`, `_build_graph`)

Posts here are the relational `Post` rows of `app/db/models.py` (flat
engagement counters); edges arrive as `(src, dst, type, created_at)` rows.
`max_nodes : Option Nat` models the optional Python argument; Python's
falsy test `if max_nodes and len(posts) > max_nodes:` makes both `None` and
`0` skip the trim (negative caps, which Python would feed to slicing, are
outside this model). -/

/-- A `Post` row as fetched for graph assembly (`app/db/models.py`). -/
structure DbPost where
  uri : String
  author_did : String
  author_handle : String
  created_at : Timestamp
  text : String := ""
  like_count : Int := 0
  repost_count : Int := 0
  reply_count : Int := 0
  quote_count : Int := 0
deriving Repr, DecidableEq

/-- An edge row `(src_uri, dst_uri, edge_type, created_at)`. -/
structure EdgeRow where
  src : String
  dst : String
  etype : String
  created : Option Timestamp := none
deriving Repr, DecidableEq

/-- `GraphNode` of `app/schemas.py` (the fields `_build_graph` fills). -/
structure GraphNode where
  uri : String
  text : String
  authorHandle : String
  authorDid : String
  createdAt : Timestamp
  metrics : PostMetrics
  inDegree : Nat
  outDegree : Nat
deriving Repr, DecidableEq

/-- `GraphEdge` of `app/schemas.py`. -/
structure GraphEdge where
  src : String
  dst : String
  type : String
deriving Repr, DecidableEq

/-- `GraphStats` of `app/schemas.py`. -/
structure GraphStats where
  nodeCount : Nat
  edgeCount : Nat
  timeMin : Option Timestamp
  timeMax : Option Timestamp
deriving Repr, DecidableEq

/-- `GraphDTO` of `app/schemas.py`. -/
structure GraphDTO where
  nodes : List GraphNode
  edges : List GraphEdge
  stats : GraphStats
deriving Repr, DecidableEq

/-- The engagement score `_build_graph` computes: the sum of the four
counters. -/
def engagementScore (p : DbPost) : Int :=
  p.like_count + p.repost_count + p.reply_count + p.quote_count

/-- The node-trimming step of `_build_graph`: score every post, stable-sort
the `(score, post)` pairs by score descending (`list.sort(key, reverse=True)`
is a stable sort, modelled by `List.mergeSort`), keep the top `max_nodes`. -/
def trimPosts (posts : List DbPost) (max_nodes : Option Nat) : List DbPost :=
  match max_nodes with
  | none => posts
  | some k =>
    if k ≠ 0 ∧ posts.length > k then
      let scored := posts.map (fun p => (engagementScore p, p))
      let sorted := scored.mergeSort (fun a b => decide (b.1 ≤ a.1))
      (sorted.take k).map (fun sp => sp.2)
    else posts

/-- `_build_graph` of `runs_service.py`. -/
def build_graph (posts : List DbPost) (edge_tuples : List EdgeRow)
    (max_nodes : Option Nat) : GraphDTO :=
  let posts := trimPosts posts max_nodes
  let uri_set := posts.map (fun p => p.uri)
  let filtered_edges :=
    edge_tuples.filter (fun e => uri_set.contains e.src && uri_set.contains e.dst)
  let in_degree :=
    filtered_edges.foldl
      (fun d e => dictSet d e.dst (dictGetD d e.dst 0 + 1))
      ([] : List (String × Nat))
  let out_degree :=
    filtered_edges.foldl
      (fun d e => dictSet d e.src (dictGetD d e.src 0 + 1))
      ([] : List (String × Nat))
  let nodes :=
    posts.map (fun p =>
      { uri := p.uri
        text := p.text
        authorHandle := p.author_handle
        authorDid := p.author_did
        createdAt := p.created_at
        metrics :=
          { like_count := p.like_count
            repost_count := p.repost_count
            reply_count := p.reply_count
            quote_count := p.quote_count }
        inDegree := dictGetD in_degree p.uri 0
        outDegree := dictGetD out_degree p.uri 0 : GraphNode })
  let edges :=
    filtered_edges.map (fun e => { src := e.src, dst := e.dst, type := e.etype : GraphEdge })
  let timestamps := posts.map (fun p => p.created_at)
  { nodes := nodes
    edges := edges
    stats :=
      { nodeCount := nodes.length
        edgeCount := edges.length
        timeMin := timestamps.min?
        timeMax := timestamps.max? } }

/-! ### Concrete fixtures used to instantiate the claims -/

/-- A concrete stand-in for `datetime.fromisoformat`, defined on the two
ISO strings the fixtures use (after the `Z` → `+00:00` rewrite) and failing
on everything else. -/
def testFromIso : String → Option Timestamp := fun s =>
  if s = "2024-01-15T10:30:45+00:00" then some 100
  else if s = "2024-06-01T00:00:00+00:00" then some 5
  else none

/-- Edges used to instantiate the deduplication claims: two REPLY edges with
the same identity triple but different timestamps, and a QUOTE edge that
differs from them only in type. -/
def edgeReplyT1 : Edge :=
  { src_uri := "at://p1", dst_uri := "at://p2", edge_type := .REPLY,
    created_at := some 1 }

def edgeReplyT2 : Edge :=
  { src_uri := "at://p1", dst_uri := "at://p2", edge_type := .REPLY,
    created_at := some 2 }

def edgeQuote : Edge :=
  { src_uri := "at://p1", dst_uri := "at://p2", edge_type := .QUOTE,
    created_at := none }

/-- A raw seed post with text "t1". -/
def rawSeedPost : RawPost :=
  { uri := some "at://seed"
    author := some { did := some "did:plc:a", handle := some "alice" }
    record := some { text := some "t1", createdAt := some "2024-06-01T00:00:00Z" } }

/-- A raw quote-page post carrying the same URI as `rawSeedPost` but text
"t2": a later-seen duplicate with different field values. -/
def rawQuoteDup : RawPost :=
  { uri := some "at://seed"
    author := some { did := some "did:plc:a", handle := some "alice" }
    record := some { text := some "t2", createdAt := some "2024-06-01T00:00:00Z" } }

/-- A thread response whose root is just the seed post. -/
def seedThreadTree : ThreadNode := .threadViewPost (some rawSeedPost) none []

/-- A single quote page containing the duplicate post, with no continuation
cursor and a healthy budget. -/
def dupQuotePage : QuotePage :=
  { posts := [rawQuoteDup], cursor := false, budgetLow := false }

/-- Seed-mode inputs with a roomy node cap. -/
def seedInputs : SeedModeInputs :=
  { seed_uri := "at://seed", max_depth := 2, max_quote_pages := 3,
    max_nodes := 500 }

/-- Posts sharing the URI `"at://a"` with different texts, and a post with a
distinct URI, to instantiate the deduplication claims. -/
def postA1 : Post :=
  { uri := "at://a", author_did := "d", author_handle := "h",
    created_at := 1, text := "first" }

def postA2 : Post :=
  { uri := "at://a", author_did := "d", author_handle := "h",
    created_at := 2, text := "second" }

def postB : Post :=
  { uri := "at://b", author_did := "d", author_handle := "h",
    created_at := 3 }

/-- A raw reply post (the thread root) whose `parent` field will hold the
post it replies to. -/
def rawChildPost : RawPost :=
  { uri := some "at://child"
    author := some { did := some "did:plc:c", handle := some "carol" }
    record := some { text := some "the reply", createdAt := some "2024-06-01T00:00:00Z" } }

/-- The raw post being replied to. -/
def rawParentPost : RawPost :=
  { uri := some "at://parent"
    author := some { did := some "did:plc:p", handle := some "pat" }
    record := some { text := some "the parent", createdAt := some "2024-01-15T10:30:45Z" } }

/-- A thread whose root is the reply and whose `parent` chain holds the post
it replies to: the child post replies to the parent post. -/
def parentChainTree : ThreadNode :=
  .threadViewPost (some rawChildPost)
    (some (.threadViewPost (some rawParentPost) none [])) []

/-- Modelled from the spec: the order "by engagement score descending with
ties broken by original input order" as a total order on index-tagged posts:
strictly greater score first, equal scores ordered by input index. -/
def specLE (a b : Nat × DbPost) : Bool :=
  decide (engagementScore b.2 < engagementScore a.2 ∨
    (engagementScore a.2 = engagementScore b.2 ∧ a.1 ≤ b.1))

/-- Database post rows with the spec example's engagement scores
(A: 180, B: 90, C: 8). -/
def dbA : DbPost :=
  { uri := "at://A", author_did := "dA", author_handle := "hA",
    created_at := 1, like_count := 100, repost_count := 50,
    reply_count := 20, quote_count := 10 }

def dbB : DbPost :=
  { uri := "at://B", author_did := "dB", author_handle := "hB",
    created_at := 2, like_count := 50, repost_count := 25,
    reply_count := 10, quote_count := 5 }

def dbC : DbPost :=
  { uri := "at://C", author_did := "dC", author_handle := "hC",
    created_at := 3, like_count := 5, repost_count := 2,
    reply_count := 1, quote_count := 0 }

/-- The spec example's edge rows: B quotes A and C quotes A. -/
def rowBA : EdgeRow := { src := "at://B", dst := "at://A", etype := "QUOTE" }

def rowCA : EdgeRow := { src := "at://C", dst := "at://A", etype := "QUOTE" }

/-- The graph node `_build_graph` produces for `dbA` under the edge rows
`[rowBA, rowCA]` without trimming: in-degree 2, out-degree 0. -/
def nodeA : GraphNode :=
  { uri := "at://A", text := "", authorHandle := "hA", authorDid := "dA",
    createdAt := 1,
    metrics := { like_count := 100, repost_count := 50, reply_count := 20,
                 quote_count := 10 },
    inDegree := 2, outDegree := 0 }

/-- A raw post whose `createdAt` is present but unparseable while its
`indexedAt` parses (to 100 under `testFromIso`). -/
def rawBadCreatedAt : RawPost :=
  { uri := some "at://x"
    author := some { did := some "did:plc:x", handle := some "xena" }
    record := some { text := some "x", createdAt := some "not-a-timestamp" }
    indexedAt := some "2024-01-15T10:30:45Z" }

/-! ## Theorems -/

/-! ### Deduplication lemmas -/

theorem find?_filter_of_imp {α : Type} (l : List α) (p q : α → Bool)
    (h : ∀ x, p x = true → q x = true) :
    (l.filter q).find? p = l.find? p := by
  induction l with
  | nil => rfl
  | cons a t ih =>
    by_cases hq : q a = true
    · by_cases hp : p a = true
      · simp [List.filter_cons, hq, List.find?_cons, hp]
      · simp [List.filter_cons, hq, List.find?_cons, hp, ih]
    · have hp : ¬ p a = true := fun hc => hq (h a hc)
      simp [List.filter_cons, hq, List.find?_cons, hp, ih]

theorem specDedupEdges_sublist :
    ∀ l : List Edge, List.Sublist (specDedupEdges l) l
  | [] => by rw [specDedupEdges]
  | e :: rest => by
    rw [specDedupEdges]
    exact ((specDedupEdges_sublist _).trans
      (List.filter_sublist _)).cons₂ e
termination_by l => l.length
decreasing_by
  simp only [List.length_cons]
  exact Nat.lt_succ_of_le (List.length_filter_le _ _)

theorem dedupEdgesAux_eq_spec : ∀ (l : List Edge) (seen : List (String × String × EdgeType)),
    dedupEdgesAux seen l = specDedupEdges (l.filter (fun e => decide (e.key ∉ seen)))
  | [], seen => by simp [dedupEdgesAux, specDedupEdges]
  | e :: rest, seen => by
    rw [dedupEdgesAux]
    by_cases hs : e.key ∈ seen
    · rw [if_pos hs, dedupEdgesAux_eq_spec rest seen]
      simp [List.filter_cons, hs]
    · rw [if_neg hs, dedupEdgesAux_eq_spec rest (e.key :: seen)]
      rw [List.filter_cons, if_pos (by simpa using hs)]
      rw [specDedupEdges, List.filter_filter]
      congr 2
      apply List.filter_congr
      intro x _
      by_cases hx : x.key = e.key <;> by_cases hx2 : x.key ∈ seen <;>
        simp [hx, hx2]

theorem deduplicate_edges_eq_spec (l : List Edge) :
    deduplicate_edges l = specDedupEdges l := by
  rw [deduplicate_edges, dedupEdgesAux_eq_spec]
  congr 1
  simpa using List.filter_true l

theorem specDedupEdges_countP_key : ∀ (l : List Edge), ∀ e ∈ l,
    (specDedupEdges l).countP (fun x => decide (x.key = e.key)) = 1
  | [], e, he => absurd he (List.not_mem_nil e)
  | a :: rest, e, he => by
    rw [specDedupEdges]
    by_cases hk : a.key = e.key
    · rw [List.countP_cons_of_pos _ _ (by simpa using hk)]
      have hz : (specDedupEdges (rest.filter (fun f => decide (f.key ≠ a.key)))).countP
          (fun x => decide (x.key = e.key)) = 0 := by
        rw [List.countP_eq_zero]
        intro x hx
        have hx' := (specDedupEdges_sublist _).subset hx
        have := List.of_mem_filter hx'
        simp only [decide_eq_true_eq] at this ⊢
        rw [← hk]
        exact this
      omega
    · rw [List.countP_cons_of_neg _ _ (by simpa using hk)]
      have he' : e ∈ rest := by
        rcases List.mem_cons.1 he with he | he
        · exact absurd (congrArg Edge.key he.symm) hk
        · exact he
      exact specDedupEdges_countP_key _ e
        (List.mem_filter.2 ⟨he', by simpa using fun h => hk h.symm⟩)
termination_by l => l.length
decreasing_by
  simp only [List.length_cons]
  exact Nat.lt_succ_of_le (List.length_filter_le _ _)

theorem specDedupEdges_find? : ∀ (l : List Edge), ∀ e ∈ specDedupEdges l,
    l.find? (fun x => decide (x.key = e.key)) = some e
  | [], e, he => by rw [specDedupEdges] at he; exact absurd he (List.not_mem_nil e)
  | a :: rest, e, he => by
    rw [specDedupEdges] at he
    rcases List.mem_cons.1 he with he | he
    · subst he
      exact List.find?_cons_of_pos _ (by simp)
    · have hne : e.key ≠ a.key := by
        have h1 := (specDedupEdges_sublist _).subset he
        have h2 := List.of_mem_filter h1
        simpa using h2
      rw [List.find?_cons_of_neg _ (by simpa using fun h => hne h.symm)]
      rw [← find?_filter_of_imp rest (fun x => decide (x.key = e.key))
        (fun f => decide (f.key ≠ a.key))
        (by intro x hx; simp only [decide_eq_true_eq] at hx ⊢; rw [hx]; exact hne)]
      exact specDedupEdges_find? _ e he
termination_by l => l.length
decreasing_by
  simp only [List.length_cons]
  exact Nat.lt_succ_of_le (List.length_filter_le _ _)

/-- Claim C9: for any edge list, `deduplicate_edges` keeps exactly the first
occurrence per `(src_uri, dst_uri, edge_type)` identity triple in original
order: it agrees with the first-occurrence specification, its output is a
subsequence of the input, each identity triple occurring in the input occurs
exactly once in the output, and every kept edge is the first input edge
carrying its triple — so two edges differing only in `created_at` collapse
to the first while an edge differing in `edge_type` stays distinct. -/
theorem deduplicate_edges_first_occurrence (l : List Edge) :
    deduplicate_edges l = specDedupEdges l ∧
    List.Sublist (deduplicate_edges l) l ∧
    (∀ e ∈ l, (deduplicate_edges l).countP (fun x => decide (x.key = e.key)) = 1) ∧
    (∀ e ∈ deduplicate_edges l, l.find? (fun x => decide (x.key = e.key)) = some e) := by
  refine ⟨deduplicate_edges_eq_spec l, ?_, ?_, ?_⟩
  · rw [deduplicate_edges_eq_spec]; exact specDedupEdges_sublist l
  · intro e he
    rw [deduplicate_edges_eq_spec]
    exact specDedupEdges_countP_key l e he
  · intro e he
    rw [deduplicate_edges_eq_spec] at he
    exact specDedupEdges_find? l e he

/-- Witness for claim C9 at the concrete list
`[edgeReplyT1, edgeReplyT2, edgeQuote]`: the two same-triple REPLY edges
collapse to the first and the QUOTE edge is kept distinct. -/
theorem deduplicate_edges_first_occurrence_witness :
    deduplicate_edges [edgeReplyT1, edgeReplyT2, edgeQuote] =
      [edgeReplyT1, edgeQuote] ∧
    (deduplicate_edges [edgeReplyT1, edgeReplyT2, edgeQuote]).countP
      (fun x => decide (x.key = edgeReplyT2.key)) = 1 ∧
    [edgeReplyT1, edgeReplyT2, edgeQuote].find?
      (fun x => decide (x.key = edgeReplyT1.key)) = some edgeReplyT1 := by
  have h := deduplicate_edges_first_occurrence [edgeReplyT1, edgeReplyT2, edgeQuote]
  refine ⟨?_, h.2.2.1 edgeReplyT2 (by simp), h.2.2.2 edgeReplyT1 ?_⟩
  · rw [h.1]
    rw [specDedupEdges]
    simp [edgeReplyT1, edgeReplyT2, edgeQuote, Edge.key, List.filter_cons]
    rw [specDedupEdges]
    simp [List.filter_cons]
    rw [specDedupEdges]
  · rw [deduplicate_edges, dedupEdgesAux, dedupEdgesAux, dedupEdgesAux, dedupEdgesAux]
    simp [edgeReplyT1, edgeReplyT2, edgeQuote, Edge.key]

theorem specDedupPosts_sublist :
    ∀ l : List Post, List.Sublist (specDedupPosts l) l
  | [] => by rw [specDedupPosts]
  | p :: rest => by
    rw [specDedupPosts]
    exact ((specDedupPosts_sublist _).trans
      (List.filter_sublist _)).cons₂ p
termination_by l => l.length
decreasing_by
  simp only [List.length_cons]
  exact Nat.lt_succ_of_le (List.length_filter_le _ _)

theorem dedupPostsAux_eq_spec : ∀ (l : List Post) (seen : List String),
    dedupPostsAux seen l = specDedupPosts (l.filter (fun p => decide (p.uri ∉ seen)))
  | [], seen => by simp [dedupPostsAux, specDedupPosts]
  | p :: rest, seen => by
    rw [dedupPostsAux]
    by_cases hs : p.uri ∈ seen
    · rw [if_pos hs, dedupPostsAux_eq_spec rest seen]
      simp [List.filter_cons, hs]
    · rw [if_neg hs, dedupPostsAux_eq_spec rest (p.uri :: seen)]
      rw [List.filter_cons, if_pos (by simpa using hs)]
      rw [specDedupPosts, List.filter_filter]
      congr 2
      apply List.filter_congr
      intro x _
      by_cases hx : x.uri = p.uri <;> by_cases hx2 : x.uri ∈ seen <;>
        simp [hx, hx2]

theorem deduplicate_posts_eq_spec (l : List Post) :
    deduplicate_posts l = specDedupPosts l := by
  rw [deduplicate_posts, dedupPostsAux_eq_spec]
  congr 1
  simpa using List.filter_true l

theorem specDedupPosts_countP_uri : ∀ (l : List Post), ∀ p ∈ l,
    (specDedupPosts l).countP (fun x => decide (x.uri = p.uri)) = 1
  | [], p, hp => absurd hp (List.not_mem_nil p)
  | a :: rest, p, hp => by
    rw [specDedupPosts]
    by_cases hk : a.uri = p.uri
    · rw [List.countP_cons_of_pos _ _ (by simpa using hk)]
      have hz : (specDedupPosts (rest.filter (fun q => decide (q.uri ≠ a.uri)))).countP
          (fun x => decide (x.uri = p.uri)) = 0 := by
        rw [List.countP_eq_zero]
        intro x hx
        have hx' := (specDedupPosts_sublist _).subset hx
        have h2 := List.of_mem_filter hx'
        simp only [decide_eq_true_eq] at h2 ⊢
        rw [← hk]
        exact h2
      omega
    · rw [List.countP_cons_of_neg _ _ (by simpa using hk)]
      have hp' : p ∈ rest := by
        rcases List.mem_cons.1 hp with hp | hp
        · exact absurd (congrArg Post.uri hp.symm) hk
        · exact hp
      exact specDedupPosts_countP_uri _ p
        (List.mem_filter.2 ⟨hp', by simpa using fun h => hk h.symm⟩)
termination_by l => l.length
decreasing_by
  simp only [List.length_cons]
  exact Nat.lt_succ_of_le (List.length_filter_le _ _)

theorem specDedupPosts_find? : ∀ (l : List Post), ∀ p ∈ specDedupPosts l,
    l.find? (fun x => decide (x.uri = p.uri)) = some p
  | [], p, hp => by rw [specDedupPosts] at hp; exact absurd hp (List.not_mem_nil p)
  | a :: rest, p, hp => by
    rw [specDedupPosts] at hp
    rcases List.mem_cons.1 hp with hp | hp
    · subst hp
      exact List.find?_cons_of_pos _ (by simp)
    · have hne : p.uri ≠ a.uri := by
        have h1 := (specDedupPosts_sublist _).subset hp
        have h2 := List.of_mem_filter h1
        simpa using h2
      rw [List.find?_cons_of_neg _ (by simpa using fun h => hne h.symm)]
      rw [← find?_filter_of_imp rest (fun x => decide (x.uri = p.uri))
        (fun q => decide (q.uri ≠ a.uri))
        (by intro x hx; simp only [decide_eq_true_eq] at hx ⊢; rw [hx]; exact hne)]
      exact specDedupPosts_find? _ p hp
termination_by l => l.length
decreasing_by
  simp only [List.length_cons]
  exact Nat.lt_succ_of_le (List.length_filter_le _ _)

/-! ### Dictionary lemmas -/

theorem find?_mapReplace {α : Type} (d : List (String × α)) (k : String) (v : α) :
    (d.map (fun kv => if kv.1 = k then (k, v) else kv)).find?
        (fun kv => kv.1 = k) =
      if d.any (fun kv => kv.1 = k) then some (k, v) else none := by
  induction d with
  | nil => rfl
  | cons a t ih =>
    by_cases h : a.1 = k
    · simp [List.find?_cons, h, ih]
    · simp only [List.map_cons, if_neg h]
      rw [List.find?_cons_of_neg _ (by simpa using h)]
      rw [ih, List.any_cons, decide_eq_false h, Bool.false_or]

theorem find?_mapReplace_ne {α : Type} (d : List (String × α)) (k u : String)
    (v : α) (h : u ≠ k) :
    (d.map (fun kv => if kv.1 = k then (k, v) else kv)).find?
        (fun kv => kv.1 = u) =
      d.find? (fun kv => kv.1 = u) := by
  induction d with
  | nil => rfl
  | cons a t ih =>
    by_cases ha : a.1 = k
    · simp only [List.map_cons, if_pos ha]
      rw [List.find?_cons_of_neg _ (by simpa using fun hc => h hc.symm)]
      rw [List.find?_cons_of_neg _
        (by simp only [decide_eq_true_eq]; rw [ha]; exact fun hc => h hc.symm)]
      exact ih
    · simp only [List.map_cons, if_neg ha]
      by_cases hu : a.1 = u
      · rw [List.find?_cons_of_pos _ (by simpa using hu),
          List.find?_cons_of_pos _ (by simpa using hu)]
      · rw [List.find?_cons_of_neg _ (by simpa using hu),
          List.find?_cons_of_neg _ (by simpa using hu)]
        exact ih

theorem dictGetD_dictSet_self {α : Type} (d : List (String × α)) (k : String)
    (v v₀ : α) : dictGetD (dictSet d k v) k v₀ = v := by
  rw [dictSet, dictGetD]
  by_cases h : d.any (fun kv => kv.1 = k)
  · rw [if_pos h, find?_mapReplace, if_pos h]
  · rw [if_neg h, List.find?_append]
    have hnone : d.find? (fun kv => kv.1 = k) = none := by
      rw [List.find?_eq_none]
      intro x hx
      simp only [decide_eq_true_eq]
      intro hc
      exact h (List.any_eq_true.2 ⟨x, hx, by simpa using hc⟩)
    simp [hnone, List.find?_cons]

theorem dictGetD_dictSet_ne {α : Type} (d : List (String × α)) (k u : String)
    (v : α) (v₀ : α) (h : u ≠ k) :
    dictGetD (dictSet d k v) u v₀ = dictGetD d u v₀ := by
  rw [dictSet, dictGetD, dictGetD]
  by_cases hm : d.any (fun kv => kv.1 = k)
  · rw [if_pos hm, find?_mapReplace_ne _ _ _ _ h]
  · rw [if_neg hm, List.find?_append]
    rcases hf : d.find? (fun kv => kv.1 = u) with _ | kv
    · rw [List.find?_cons_of_neg _ (by simpa using fun hc => h hc.symm)]
      simp [hf]
    · simp [hf]

theorem dictSet_keys_of_mem {α : Type} (d : List (String × α)) (k : String)
    (v : α) (h : d.any (fun kv => kv.1 = k)) :
    (dictSet d k v).map (fun kv => kv.1) = d.map (fun kv => kv.1) := by
  rw [dictSet, if_pos h, List.map_map]
  apply List.map_congr_left
  intro kv _
  by_cases hk : kv.1 = k <;> simp [hk]

theorem dictSet_length_of_mem {α : Type} (d : List (String × α)) (k : String)
    (v : α) (h : d.any (fun kv => kv.1 = k)) :
    (dictSet d k v).length = d.length := by
  rw [dictSet, if_pos h, List.length_map]

theorem dictSet_find?_self {α : Type} (d : List (String × α)) (k : String)
    (v : α) :
    (dictSet d k v).find? (fun kv => kv.1 = k) = some (k, v) := by
  rw [dictSet]
  by_cases h : d.any (fun kv => kv.1 = k)
  · rw [if_pos h, find?_mapReplace, if_pos h]
  · rw [if_neg h, List.find?_append]
    have hnone : d.find? (fun kv => kv.1 = k) = none := by
      rw [List.find?_eq_none]
      intro x hx
      simp only [decide_eq_true_eq]
      intro hc
      exact h (List.any_eq_true.2 ⟨x, hx, by simpa using hc⟩)
    simp [hnone, List.find?_cons]

/-! ### Claim C4 -/

/-- Claim C4 (amended): `deduplicate_posts` keeps exactly the first
occurrence per distinct URI in original order (it agrees with the
first-occurrence specification, is a subsequence of the input, keeps exactly
one entry per occurring URI, and each kept entry is the first input post
with its URI); but seed-mode accumulation keeps only the first-seen
*position* for a URI that reappears — the stored field values are
overwritten by the later-seen Post. -/
theorem dedup_posts_first_wins_seed_overwrites :
    (∀ l : List Post,
      deduplicate_posts l = specDedupPosts l ∧
      List.Sublist (deduplicate_posts l) l ∧
      (∀ p ∈ l, (deduplicate_posts l).countP (fun x => decide (x.uri = p.uri)) = 1) ∧
      (∀ p ∈ deduplicate_posts l, l.find? (fun x => decide (x.uri = p.uri)) = some p)) ∧
    (∀ (cap : Nat) (acc : List (String × Post)) (p : Post) (rest : List Post),
      acc.length < cap → acc.any (fun kv => kv.1 = p.uri) = true →
      seedInsertQuotePosts cap acc (p :: rest) =
          seedInsertQuotePosts cap (dictSet acc p.uri p) rest ∧
      (dictSet acc p.uri p).map (fun kv => kv.1) = acc.map (fun kv => kv.1) ∧
      (dictSet acc p.uri p).find? (fun kv => kv.1 = p.uri) = some (p.uri, p)) := by
  constructor
  · intro l
    refine ⟨deduplicate_posts_eq_spec l, ?_, ?_, ?_⟩
    · rw [deduplicate_posts_eq_spec]; exact specDedupPosts_sublist l
    · intro p hp
      rw [deduplicate_posts_eq_spec]
      exact specDedupPosts_countP_uri l p hp
    · intro p hp
      rw [deduplicate_posts_eq_spec] at hp
      exact specDedupPosts_find? l p hp
  · intro cap acc p rest h1 h2
    refine ⟨?_, dictSet_keys_of_mem acc p.uri p h2, dictSet_find?_self acc p.uri p⟩
    rw [seedInsertQuotePosts, if_neg (by omega)]

/-- Witness for claim C4 at concrete inputs: deduplication of
`[postA1, postB, postA2]` (where `postA1` and `postA2` share a URI) agrees
with the first-occurrence specification, and absorbing `postA2` into an
accumulator already holding `postA1` under its shared URI keeps the key in
place but replaces the stored post. -/
theorem dedup_posts_first_wins_seed_overwrites_witness :
    deduplicate_posts [postA1, postB, postA2] =
      specDedupPosts [postA1, postB, postA2] ∧
    (dictSet [("at://a", postA1)] postA2.uri postA2).map (fun kv => kv.1) =
      [("at://a", postA1)].map (fun kv => kv.1) ∧
    (dictSet [("at://a", postA1)] postA2.uri postA2).find?
      (fun kv => kv.1 = postA2.uri) = some (postA2.uri, postA2) := by
  have h := dedup_posts_first_wins_seed_overwrites
  exact ⟨(h.1 [postA1, postB, postA2]).1,
    (h.2 5 [("at://a", postA1)] postA2 [] (by decide) (by decide)).2.1,
    (h.2 5 [("at://a", postA1)] postA2 [] (by decide) (by decide)).2.2⟩

/-- Counterexample to claim C4 as stated: in a seed-mode run where the URI
`"at://seed"` is first seen in the thread with text `"t1"` and later seen in
a quote page with text `"t2"`, the returned Post carries the later-seen
values `"t2"`, not the first-seen ones — dictionary insertion overwrites. -/
theorem seed_mode_first_seen_values_counterexample :
    (extract_thread_posts_and_edges testFromIso 7 (some seedThreadTree)
        seedInputs.max_depth).1.map (fun kv => (kv.2.uri, kv.2.text)) =
      [("at://seed", "t1")] ∧
    (seed_mode seedInputs testFromIso 7 (some seedThreadTree)
        [some dupQuotePage]).1.map (fun p => (p.uri, p.text)) =
      [("at://seed", "t2")] := by
  constructor
  · simp [extract_thread_posts_and_edges, normalize_thread_node,
      normalize_thread_replies, normalize_post, parse_timestamp, pyTruthy,
      pyOr, dictSet, testFromIso, rawSeedPost, seedThreadTree, seedInputs]
  · simp [seed_mode, extract_thread_posts_and_edges, normalize_thread_node,
      normalize_thread_replies, normalize_post, parse_timestamp, pyTruthy,
      pyOr, dictSet, dictGetD, seedQuoteLoop, seedInsertQuotePosts,
      extract_quote_edges, deduplicate_edges, dedupEdgesAux, testFromIso,
      rawSeedPost, rawQuoteDup, seedThreadTree, dupQuotePage, seedInputs,
      Edge.key]

/-! ### Claim C1 -/

/-- Claim C1 (refuted by the code, which contradicts the specified invariant
"REPLY edges point from child to parent"): on a thread whose root
`rawChildPost` replies to `rawParentPost` (held in the root's `parent`
field), the traversal emits the REPLY edge with the *parent* post as source
and the *child* post as destination, and the child-to-parent edge the claim
requires is absent. -/
theorem thread_parent_chain_reply_edge_reversed :
    (extract_thread_posts_and_edges testFromIso 7 (some parentChainTree)
        10).2.map Edge.key =
      [("at://parent", "at://child", EdgeType.REPLY)] ∧
    ∀ e ∈ (extract_thread_posts_and_edges testFromIso 7 (some parentChainTree)
        10).2,
      ¬ (e.src_uri = "at://child" ∧ e.dst_uri = "at://parent") := by
  have hev :
      (extract_thread_posts_and_edges testFromIso 7 (some parentChainTree)
          10).2.map Edge.key =
        [("at://parent", "at://child", EdgeType.REPLY)] := by
    simp [extract_thread_posts_and_edges, normalize_thread_node,
      normalize_thread_replies, normalize_post, parse_timestamp, pyTruthy,
      pyOr, dictSet, testFromIso, rawChildPost, rawParentPost,
      parentChainTree, Edge.key]
  refine ⟨hev, ?_⟩
  intro e he hc
  have hm := List.mem_map_of_mem Edge.key he
  rw [hev] at hm
  simp only [List.mem_singleton, Edge.key, Prod.mk.injEq] at hm
  rw [hc.1] at hm
  exact absurd hm.1 (by decide)

/-! ### Claim C2 -/

/-- Claim C2 (amended): for every raw payload accepted by `normalize_post`,
when the authored-content timestamp string (`record.createdAt`) is present
and non-empty, the returned `created_at` is its parse when it parses and the
current time otherwise — the index timestamp is *not* consulted; only when
`record.createdAt` is absent or empty is `indexedAt` used, its parse when it
parses and the current time otherwise. -/
theorem normalize_post_created_at_cases (fromIso : String → Option Timestamp)
    (now : Timestamp) (pd : RawPost) (p : Post)
    (h : normalize_post fromIso now pd = some p) :
    (pyTruthy (pd.record.getD {}).createdAt = true →
      p.created_at =
        (parse_timestamp fromIso (pd.record.getD {}).createdAt).getD now) ∧
    (pyTruthy (pd.record.getD {}).createdAt = false →
      p.created_at = (parse_timestamp fromIso pd.indexedAt).getD now) := by
  rw [normalize_post] at h
  dsimp only at h
  split at h
  · exact absurd h (by simp)
  · split at h
    · exact absurd h (by simp)
    · rw [Option.some_inj] at h
      subst h
      constructor
      · intro ht
        simp only [pyOr, ht, if_true]
        cases parse_timestamp fromIso (pd.record.getD {}).createdAt <;> rfl
      · intro ht
        simp only [pyOr, ht, Bool.false_eq_true, if_false]
        cases parse_timestamp fromIso pd.indexedAt <;> rfl

/-- Witness for claim C2 on `rawSeedPost` (whose `createdAt` is present and
parses to 5 under `testFromIso`): the returned `created_at` is the parsed
authored-content timestamp. -/
theorem normalize_post_created_at_cases_witness :
    ∃ p, normalize_post testFromIso 7 rawSeedPost = some p ∧
      p.created_at = 5 := by
  refine ⟨_, rfl, ?_⟩
  have h := normalize_post_created_at_cases testFromIso 7 rawSeedPost _ rfl
  rw [h.1 (by decide)]
  decide

/-- Counterexample to claim C2 as stated: on `rawBadCreatedAt`, whose
`createdAt` is present but unparseable while `indexedAt` parses to 100, the
claim predicts `created_at = 100`, but the code falls straight through to
the current time (7) because `createdAt or indexedAt` selected the
unparseable `createdAt`. -/
theorem normalize_post_created_at_counterexample :
    parse_timestamp testFromIso (rawBadCreatedAt.record.getD {}).createdAt =
      none ∧
    parse_timestamp testFromIso rawBadCreatedAt.indexedAt = some 100 ∧
    (normalize_post testFromIso 7 rawBadCreatedAt).map (fun p => p.created_at) =
      some 7 ∧
    ¬ (normalize_post testFromIso 7 rawBadCreatedAt).map (fun p => p.created_at) =
      some 100 := by
  refine ⟨by decide, by decide, by decide, by decide⟩

/-! ### Client lemmas -/

theorem getLoop_counters {π : Type} (cfg : ClientConfig)
    (env : Nat → NetOutcome π) :
    ∀ (a : Nat) (st : ClientState),
      (getLoop cfg env a st).2.request_count =
          st.request_count + attemptsUsed cfg env a ∧
      (getLoop cfg env a st).2.stats.total_requests =
          st.stats.total_requests + attemptsUsed cfg env a ∧
      (getLoop cfg env a st).2.stats.cache_hits = st.stats.cache_hits ∧
      (getLoop cfg env a st).2.stats.cache_misses = st.stats.cache_misses := by
  intro a st
  induction a, st using getLoop.induct cfg env
  all_goals rw [getLoop, attemptsUsed]
  all_goals simp_all
  all_goals try omega
  all_goals split_ifs <;> (try simp_all) <;> omega

theorem attemptsUsed_le {π : Type} (cfg : ClientConfig)
    (env : Nat → NetOutcome π) :
    ∀ a : Nat, attemptsUsed cfg env a ≤ cfg.max_retries - a := by
  intro a
  induction a using attemptsUsed.induct cfg env
  all_goals rw [attemptsUsed]
  all_goals simp_all
  all_goals try omega
  all_goals split_ifs <;> (try simp_all) <;> omega

theorem get_counters {π : Type} (cfg : ClientConfig) (st : ClientState)
    (cached : Option π) (env : Nat → NetOutcome π) :
    (BlueskyClient.get cfg st cached env).2.request_count =
        st.request_count + networkCalls cfg st cached env ∧
    (BlueskyClient.get cfg st cached env).2.stats.total_requests =
        st.stats.total_requests + networkCalls cfg st cached env := by
  rw [BlueskyClient.get, networkCalls.eq_def]
  by_cases h : st.request_count ≥ cfg.max_requests_per_run
  · simp [h]
  · rw [if_neg h, if_neg h]
    cases cached with
    | some v => simp [getFromCache]
    | none =>
      simp only [getFromCache]
      have hc := getLoop_counters cfg env 0
        { st with
          stats := { st.stats with cache_misses := st.stats.cache_misses + 1 } }
      exact ⟨hc.1, hc.2.1⟩

/-! ### Claim C3 -/

/-- Claim C3 (amended): across any sequence of `get` calls on one client,
the per-run request counter and the total-request statistic increase exactly
once per network call (`networkCalls`, which is zero when the budget check
fails or the cache answers and at most `max_retries` otherwise); but the
budget cap is only checked on entry to `get`, so the counter can exceed
`max_requests_per_run` by up to `max_retries - 1` — what holds is the bound
`max_requests_per_run - 1 + max_retries`, preserved across any sequence of
calls. -/
theorem request_counter_once_per_call_and_bounded :
    (∀ (π : Type) (cfg : ClientConfig) (st : ClientState) (cached : Option π)
        (env : Nat → NetOutcome π),
      (BlueskyClient.get cfg st cached env).2.request_count =
          st.request_count + networkCalls cfg st cached env ∧
      (BlueskyClient.get cfg st cached env).2.stats.total_requests =
          st.stats.total_requests + networkCalls cfg st cached env ∧
      networkCalls cfg st cached env ≤ cfg.max_retries ∧
      (st.request_count ≥ cfg.max_requests_per_run →
        networkCalls cfg st cached env = 0)) ∧
    (∀ (π : Type) (cfg : ClientConfig)
        (calls : List (Option π × (Nat → NetOutcome π))) (st : ClientState),
      st.request_count ≤ cfg.max_requests_per_run - 1 + cfg.max_retries →
      (runGets cfg calls st).request_count ≤
        cfg.max_requests_per_run - 1 + cfg.max_retries) := by
  have hone : ∀ (π : Type) (cfg : ClientConfig) (st : ClientState)
      (cached : Option π) (env : Nat → NetOutcome π),
      (BlueskyClient.get cfg st cached env).2.request_count =
          st.request_count + networkCalls cfg st cached env ∧
      (BlueskyClient.get cfg st cached env).2.stats.total_requests =
          st.stats.total_requests + networkCalls cfg st cached env ∧
      networkCalls cfg st cached env ≤ cfg.max_retries ∧
      (st.request_count ≥ cfg.max_requests_per_run →
        networkCalls cfg st cached env = 0) := by
    intro π cfg st cached env
    refine ⟨(get_counters cfg st cached env).1,
      (get_counters cfg st cached env).2, ?_, ?_⟩
    · rw [networkCalls.eq_def]
      split_ifs with h
      · omega
      · cases cached with
        | some v => simp
        | none =>
          have h0 := attemptsUsed_le cfg env 0
          show attemptsUsed cfg env 0 ≤ cfg.max_retries
          omega
    · intro h
      rw [networkCalls.eq_def, if_pos h]
  refine ⟨hone, ?_⟩
  intro π cfg calls
  induction calls with
  | nil => intro st h; simpa [runGets] using h
  | cons c rest ih =>
    intro st h
    rw [runGets]
    apply ih
    have h1 := (hone π cfg st c.1 c.2).1
    have h3 := (hone π cfg st c.1 c.2).2.2.1
    have h4 := (hone π cfg st c.1 c.2).2.2.2
    by_cases hc : st.request_count ≥ cfg.max_requests_per_run
    · rw [h4 hc] at h1; omega
    · omega

/-- Witness for claim C3: a fresh client (counter 0) under the default-like
configuration `max_retries = 3`, `max_requests_per_run = 500`, after one
cache-missing successful call, still satisfies the bound. -/
theorem request_counter_once_per_call_and_bounded_witness :
    ({} : ClientState).request_count ≤ 500 - 1 + 3 ∧
    (runGets { max_retries := 3, max_requests_per_run := 500 }
        [((none : Option Nat), fun _ => NetOutcome.ok 7)]
        {}).request_count ≤ 500 - 1 + 3 :=
  ⟨by decide,
    request_counter_once_per_call_and_bounded.2 Nat
      { max_retries := 3, max_requests_per_run := 500 }
      [((none : Option Nat), fun _ => NetOutcome.ok 7)] {} (by decide)⟩

/-- Counterexample to claim C3 as stated: with `max_requests_per_run = 1`
and `max_retries = 3`, one `get` on a fresh client whose every attempt hits
a 5xx performs three network calls, driving the request counter to 3 — past
the configured maximum of 1 — because the budget is not re-checked between
retry attempts. -/
theorem budget_cap_exceeded_counterexample :
    (BlueskyClient.get { max_retries := 3, max_requests_per_run := 1 } {}
        (none : Option Nat) (fun _ => NetOutcome.serverError)).2.request_count
      = 3 ∧
    ¬ (BlueskyClient.get { max_retries := 3, max_requests_per_run := 1 } {}
        (none : Option Nat) (fun _ => NetOutcome.serverError)).2.request_count
      ≤ 1 := by
  have hev :
      (BlueskyClient.get { max_retries := 3, max_requests_per_run := 1 } {}
          (none : Option Nat)
          (fun _ => NetOutcome.serverError)).2.request_count = 3 := by
    simp [BlueskyClient.get, getFromCache, getLoop]
  exact ⟨hev, by omega⟩

/-! ### Claim C8 -/

/-- Claim C8: when the request counter has reached the budget cap, `get`
fails with the budget-exhausted error and returns the state untouched, for
every cache content and every network environment — so no counter changes
and neither the cache nor the network is consulted. -/
theorem get_budget_exhausted_frame {π : Type} (cfg : ClientConfig)
    (st : ClientState) (cached : Option π) (env : Nat → NetOutcome π)
    (h : st.request_count ≥ cfg.max_requests_per_run) :
    BlueskyClient.get cfg st cached env = (.error .budgetExhausted, st) := by
  rw [BlueskyClient.get, if_pos h]

/-- Witness for claim C8: a client whose counter (2) equals the cap fails
even though the cache holds a value and the network would answer. -/
theorem get_budget_exhausted_frame_witness :
    BlueskyClient.get { max_retries := 3, max_requests_per_run := 2 }
        { stats := {}, request_count := 2 } (some (99 : Nat))
        (fun _ => NetOutcome.ok 5) =
      (.error .budgetExhausted, { stats := {}, request_count := 2 }) :=
  get_budget_exhausted_frame _ _ _ _ (by decide)

/-! ### Claim C10 -/

/-- Claim C10: a `get` answered from the cache returns the cached payload
and increments only the cache-hit counter: the request counter, the
remaining budget, the total-request counter, the cache-miss counter and the
failed-request counter are all unchanged. -/
theorem get_cache_hit_frame {π : Type} (cfg : ClientConfig)
    (st : ClientState) (v : π) (env : Nat → NetOutcome π)
    (h : st.request_count < cfg.max_requests_per_run) :
    (BlueskyClient.get cfg st (some v) env).1 = .ok v ∧
    (BlueskyClient.get cfg st (some v) env).2.request_count =
      st.request_count ∧
    get_remaining_budget cfg (BlueskyClient.get cfg st (some v) env).2 =
      get_remaining_budget cfg st ∧
    (BlueskyClient.get cfg st (some v) env).2.stats.total_requests =
      st.stats.total_requests ∧
    (BlueskyClient.get cfg st (some v) env).2.stats.cache_misses =
      st.stats.cache_misses ∧
    (BlueskyClient.get cfg st (some v) env).2.stats.failed_requests =
      st.stats.failed_requests ∧
    (BlueskyClient.get cfg st (some v) env).2.stats.cache_hits =
      st.stats.cache_hits + 1 := by
  rw [BlueskyClient.get, if_neg (by omega)]
  simp [getFromCache, get_remaining_budget]

/-- Witness for claim C10: a fresh client with a cached value 42 under the
default-like configuration. -/
theorem get_cache_hit_frame_witness :
    (BlueskyClient.get { max_retries := 3, max_requests_per_run := 500 } {}
        (some (42 : Nat)) (fun _ => NetOutcome.failure)).1 = .ok 42 ∧
    (BlueskyClient.get { max_retries := 3, max_requests_per_run := 500 } {}
        (some (42 : Nat)) (fun _ => NetOutcome.failure)).2.request_count =
      ({} : ClientState).request_count ∧
    get_remaining_budget { max_retries := 3, max_requests_per_run := 500 }
        (BlueskyClient.get { max_retries := 3, max_requests_per_run := 500 } {}
          (some (42 : Nat)) (fun _ => NetOutcome.failure)).2 =
      get_remaining_budget { max_retries := 3, max_requests_per_run := 500 }
        {} ∧
    (BlueskyClient.get { max_retries := 3, max_requests_per_run := 500 } {}
        (some (42 : Nat)) (fun _ => NetOutcome.failure)).2.stats.total_requests =
      ({} : ClientState).stats.total_requests ∧
    (BlueskyClient.get { max_retries := 3, max_requests_per_run := 500 } {}
        (some (42 : Nat)) (fun _ => NetOutcome.failure)).2.stats.cache_misses =
      ({} : ClientState).stats.cache_misses ∧
    (BlueskyClient.get { max_retries := 3, max_requests_per_run := 500 } {}
        (some (42 : Nat)) (fun _ => NetOutcome.failure)).2.stats.failed_requests =
      ({} : ClientState).stats.failed_requests ∧
    (BlueskyClient.get { max_retries := 3, max_requests_per_run := 500 } {}
        (some (42 : Nat)) (fun _ => NetOutcome.failure)).2.stats.cache_hits =
      ({} : ClientState).stats.cache_hits + 1 :=
  get_cache_hit_frame _ _ _ _ (by decide)

/-! ### Claim C6 -/

theorem dictGetD_foldl_bump_dst :
    ∀ (l : List EdgeRow) (d : List (String × Nat)) (u : String),
      dictGetD
          (l.foldl (fun d e => dictSet d e.dst (dictGetD d e.dst 0 + 1)) d)
          u 0 =
        dictGetD d u 0 + l.countP (fun e => decide (e.dst = u)) := by
  intro l
  induction l with
  | nil => intro d u; simp
  | cons e t ih =>
    intro d u
    rw [List.foldl_cons, ih]
    by_cases h : e.dst = u
    · rw [List.countP_cons_of_pos _ _ (by simpa using h), ← h,
        dictGetD_dictSet_self]
      omega
    · rw [List.countP_cons_of_neg _ _ (by simpa using h),
        dictGetD_dictSet_ne _ _ _ _ _ (fun hc => h hc.symm)]

theorem dictGetD_foldl_bump_src :
    ∀ (l : List EdgeRow) (d : List (String × Nat)) (u : String),
      dictGetD
          (l.foldl (fun d e => dictSet d e.src (dictGetD d e.src 0 + 1)) d)
          u 0 =
        dictGetD d u 0 + l.countP (fun e => decide (e.src = u)) := by
  intro l
  induction l with
  | nil => intro d u; simp
  | cons e t ih =>
    intro d u
    rw [List.foldl_cons, ih]
    by_cases h : e.src = u
    · rw [List.countP_cons_of_pos _ _ (by simpa using h), ← h,
        dictGetD_dictSet_self]
      omega
    · rw [List.countP_cons_of_neg _ _ (by simpa using h),
        dictGetD_dictSet_ne _ _ _ _ _ (fun hc => h hc.symm)]

/-- Claim C6: the edges returned by graph assembly are exactly the input
edge rows whose two endpoints both lie in the returned node set (in input
order), and every returned node's in-degree (out-degree) equals the number
of returned edges with that node as destination (source) — degrees are
computed from the filtered edge set only. -/
theorem build_graph_edges_and_degrees (posts : List DbPost)
    (edge_tuples : List EdgeRow) (max_nodes : Option Nat) :
    (build_graph posts edge_tuples max_nodes).edges =
      (edge_tuples.filter (fun e =>
        ((build_graph posts edge_tuples max_nodes).nodes.map
          (fun n => n.uri)).contains e.src &&
        ((build_graph posts edge_tuples max_nodes).nodes.map
          (fun n => n.uri)).contains e.dst)).map
        (fun e => { src := e.src, dst := e.dst, type := e.etype }) ∧
    ∀ n ∈ (build_graph posts edge_tuples max_nodes).nodes,
      n.inDegree = (build_graph posts edge_tuples max_nodes).edges.countP
        (fun e => decide (e.dst = n.uri)) ∧
      n.outDegree = (build_graph posts edge_tuples max_nodes).edges.countP
        (fun e => decide (e.src = n.uri)) := by
  have huris : (build_graph posts edge_tuples max_nodes).nodes.map
      (fun n => n.uri) = (trimPosts posts max_nodes).map (fun p => p.uri) := by
    simp [build_graph]
  constructor
  · rw [huris]
    simp only [build_graph]
  · intro n hn
    simp only [build_graph, List.mem_map] at hn
    obtain ⟨p, hp, rfl⟩ := hn
    constructor
    · simp only [build_graph]
      rw [List.countP_map, dictGetD_foldl_bump_dst _ []]
      simp only [dictGetD, List.find?_nil, Nat.zero_add]
      rfl
    · simp only [build_graph]
      rw [List.countP_map, dictGetD_foldl_bump_src _ []]
      simp only [dictGetD, List.find?_nil, Nat.zero_add]
      rfl

/-- Witness for claim C6 on the spec example (posts A, B, C with edges B→A
and C→A, no trimming): node A is produced with in-degree 2 and out-degree 0,
and those degrees equal the counts over the returned edges. -/
theorem build_graph_edges_and_degrees_witness :
    nodeA ∈ (build_graph [dbA, dbB, dbC] [rowBA, rowCA] none).nodes ∧
    nodeA.inDegree =
      (build_graph [dbA, dbB, dbC] [rowBA, rowCA] none).edges.countP
        (fun e => decide (e.dst = nodeA.uri)) ∧
    nodeA.outDegree =
      (build_graph [dbA, dbB, dbC] [rowBA, rowCA] none).edges.countP
        (fun e => decide (e.src = nodeA.uri)) ∧
    nodeA.inDegree = 2 ∧ nodeA.outDegree = 0 := by
  have h := build_graph_edges_and_degrees [dbA, dbB, dbC] [rowBA, rowCA] none
  have hmem : nodeA ∈ (build_graph [dbA, dbB, dbC] [rowBA, rowCA] none).nodes := by
    decide
  exact ⟨hmem, (h.2 nodeA hmem).1, (h.2 nodeA hmem).2, by decide, by decide⟩

/-! ### Claim C5 -/

theorem enumLE_score_eq_specLE :
    List.enumLE (fun p q => decide (engagementScore q ≤ engagementScore p)) =
      specLE := by
  funext a b
  rw [List.enumLE, specLE]
  by_cases h1 : engagementScore b.2 ≤ engagementScore a.2 <;>
    by_cases h2 : engagementScore a.2 ≤ engagementScore b.2
  · rw [if_pos (by simpa using h1), if_pos (by simpa using h2),
      decide_eq_decide]
    omega
  · rw [if_pos (by simpa using h1), if_neg (by simpa using h2), eq_comm,
      decide_eq_true_eq]
    omega
  · rw [if_neg (by simpa using h1), eq_comm, decide_eq_false_iff_not]
    omega
  · rw [if_neg (by simpa using h1), eq_comm, decide_eq_false_iff_not]
    omega

theorem mergeSort_by_score_eq_enum (posts : List DbPost) :
    posts.mergeSort
        (fun p q => decide (engagementScore q ≤ engagementScore p)) =
      (posts.enum.mergeSort specLE).map (fun ip => ip.2) := by
  rw [← List.mergeSort_enum, enumLE_score_eq_specLE]

theorem trimPosts_spec (posts : List DbPost) (k : Nat) (hk : k ≠ 0)
    (hlen : posts.length > k) :
    trimPosts posts (some k) =
      ((posts.enum.mergeSort specLE).take k).map (fun ip => ip.2) := by
  rw [trimPosts]
  rw [if_pos ⟨hk, hlen⟩]
  dsimp only
  have hl : ∀ a ∈ posts, ∀ b ∈ posts,
      (fun p q => decide (engagementScore q ≤ engagementScore p)) a b =
        (fun x y => decide (y.1 ≤ x.1)) ((fun p => (engagementScore p, p)) a)
          ((fun p => (engagementScore p, p)) b) := by
    intro a _ b _
    rfl
  rw [← List.map_mergeSort hl, ← List.map_take, List.map_map]
  rw [mergeSort_by_score_eq_enum, ← List.map_take, List.map_map]
  rfl

theorem build_graph_nodes_uri (posts : List DbPost) (edges : List EdgeRow)
    (mn : Option Nat) :
    (build_graph posts edges mn).nodes.map (fun n => n.uri) =
      (trimPosts posts mn).map (fun p => p.uri) := by
  simp [build_graph]

/-- Claim C5 (amended): when a positive `maxNodes` is set and the post count
exceeds it, graph assembly keeps exactly `maxNodes` posts, namely the prefix
of the posts ordered by engagement score descending with ties broken by
original input position (the stable-sort order, expressed by sorting the
index-tagged posts by the total order `specLE`), and the node list
reproduces that order; when `maxNodes` is unset, zero (Python treats a falsy
cap as no cap), or not exceeded, the node list equals the input posts in
input order. -/
theorem build_graph_trim_spec (posts : List DbPost) (edges : List EdgeRow) :
    (∀ k : Nat, 1 ≤ k → posts.length > k →
      (build_graph posts edges (some k)).nodes.map (fun n => n.uri) =
        ((posts.enum.mergeSort specLE).take k).map (fun ip => ip.2.uri) ∧
      (build_graph posts edges (some k)).nodes.length = k) ∧
    (∀ k : Nat, ¬ posts.length > k →
      (build_graph posts edges (some k)).nodes.map (fun n => n.uri) =
        posts.map (fun p => p.uri)) ∧
    (build_graph posts edges (some 0)).nodes.map (fun n => n.uri) =
      posts.map (fun p => p.uri) ∧
    (build_graph posts edges none).nodes.map (fun n => n.uri) =
      posts.map (fun p => p.uri) := by
  refine ⟨?_, ?_, ?_, ?_⟩
  · intro k hk hlen
    constructor
    · rw [build_graph_nodes_uri, trimPosts_spec posts k (by omega) hlen,
        List.map_map]
      rfl
    · have hlen2 : (build_graph posts edges (some k)).nodes.length =
          (trimPosts posts (some k)).length := by
        simp [build_graph]
      rw [hlen2, trimPosts_spec posts k (by omega) hlen, List.length_map,
        List.length_take, List.length_mergeSort, List.enum_length]
      omega
  · intro k hlen
    rw [build_graph_nodes_uri, trimPosts,
      if_neg (fun hc => hlen hc.2)]
  · rw [build_graph_nodes_uri, trimPosts,
      if_neg (fun hc => hc.1 rfl)]
  · rw [build_graph_nodes_uri, trimPosts]

/-- Witness for claim C5 on the spec example (scores A: 180, B: 90, C: 8)
with `maxNodes = 2`: the node list is the top-2 prefix of the stable
score-descending order. -/
theorem build_graph_trim_spec_witness :
    (1 ≤ 2 ∧ ([dbA, dbB, dbC] : List DbPost).length > 2) ∧
    (build_graph [dbA, dbB, dbC] [] (some 2)).nodes.map (fun n => n.uri) =
      ((([dbA, dbB, dbC] : List DbPost).enum.mergeSort specLE).take 2).map
        (fun ip => ip.2.uri) ∧
    (build_graph [dbA, dbB, dbC] [] (some 2)).nodes.length = 2 := by
  have h := (build_graph_trim_spec [dbA, dbB, dbC] []).1 2 (by decide)
    (by decide)
  exact ⟨⟨by decide, by decide⟩, h.1, h.2⟩

/-- Counterexample to claim C5 as stated: `maxNodes = 0` is a set value that
the post count (1) exceeds, yet `_build_graph` keeps every post — Python's
`if max_nodes and len(posts) > max_nodes:` treats the falsy cap 0 as "no
trimming", so the output is not the 0 highest-scoring posts. -/
theorem build_graph_max_nodes_zero_counterexample :
    ([dbA] : List DbPost).length > 0 ∧
    (build_graph [dbA] [] (some 0)).nodes.map (fun n => n.uri) = ["at://A"] ∧
    ¬ (build_graph [dbA] [] (some 0)).nodes.length = 0 :=
  ⟨by decide, by decide, by decide⟩

/-! ### Claim C7 -/

theorem seedInsertQuotePosts_spec :
    ∀ (cap : Nat) (acc : List (String × Post)) (qposts : List Post),
      ∃ n, n ≤ qposts.length ∧
        seedInsertQuotePosts cap acc qposts =
          (qposts.take n).foldl (fun d p => dictSet d p.uri p) acc ∧
        (∀ i < n,
          ((qposts.take i).foldl (fun d p => dictSet d p.uri p) acc).length <
            cap) ∧
        (n = qposts.length ∨
          ((qposts.take n).foldl (fun d p => dictSet d p.uri p) acc).length ≥
            cap) := by
  intro cap acc qposts
  induction qposts generalizing acc with
  | nil =>
    exact ⟨0, by simp [seedInsertQuotePosts]⟩
  | cons p rest ih =>
    by_cases h : acc.length ≥ cap
    · refine ⟨0, by omega, ?_, by omega, Or.inr (by simpa using h)⟩
      rw [seedInsertQuotePosts, if_pos h]
      simp
    · obtain ⟨n, hn, heq, hlt, hstop⟩ := ih (dictSet acc p.uri p)
      refine ⟨n + 1, by simpa using hn, ?_, ?_, ?_⟩
      · rw [seedInsertQuotePosts, if_neg h, heq, List.take_succ_cons,
          List.foldl_cons]
      · intro i hi
        cases i with
        | zero => simpa using h
        | succ j =>
          rw [List.take_succ_cons, List.foldl_cons]
          exact hlt j (by omega)
      · rcases hstop with hstop | hstop
        · exact Or.inl (by simp [hstop])
        · refine Or.inr ?_
          rw [List.take_succ_cons, List.foldl_cons]
          exact hstop

theorem seedQuoteLoop_edges_extend (fromIso : String → Option Timestamp)
    (now : Timestamp) (seed_uri : String) (mqp cap : Nat) :
    ∀ (pages : List (Option QuotePage)) (pf : Nat)
      (acc : List (String × Post)) (edges : List Edge),
      ∃ L, (seedQuoteLoop fromIso now seed_uri mqp cap pages pf acc edges).2 =
        edges ++ L := by
  intro pages
  induction pages with
  | nil =>
    intro pf acc edges
    rw [seedQuoteLoop]
    split_ifs <;> exact ⟨[], by simp⟩
  | cons p rest ih =>
    intro pf acc edges
    by_cases h : pf < mqp
    · cases p with
      | none =>
        rw [seedQuoteLoop]
        rw [if_pos h]
        exact ⟨[], by simp⟩
      | some page =>
        rw [seedQuoteLoop]
        rw [if_pos h]
        dsimp only
        by_cases hcur : page.cursor = true
        · rw [if_neg (by simp [hcur])]
          by_cases hbud : page.budgetLow = true
          · rw [if_pos hbud]
            exact ⟨(extract_quote_edges fromIso now page.posts seed_uri).2,
              rfl⟩
          · rw [if_neg hbud]
            by_cases hcap :
                (seedInsertQuotePosts cap acc
                  (extract_quote_edges fromIso now page.posts
                    seed_uri).1).length ≥ cap
            · rw [if_pos hcap]
              exact ⟨(extract_quote_edges fromIso now page.posts seed_uri).2,
                rfl⟩
            · rw [if_neg hcap]
              obtain ⟨L, hL⟩ := ih (pf + 1)
                (seedInsertQuotePosts cap acc
                  (extract_quote_edges fromIso now page.posts seed_uri).1)
                (edges ++
                  (extract_quote_edges fromIso now page.posts seed_uri).2)
              exact ⟨(extract_quote_edges fromIso now page.posts seed_uri).2
                  ++ L,
                by rw [hL, List.append_assoc]⟩
        · rw [if_pos (by simp [hcur])]
          exact ⟨(extract_quote_edges fromIso now page.posts seed_uri).2, rfl⟩
    · cases p <;>
        (rw [seedQuoteLoop]; rw [if_neg h]; exact ⟨[], by simp⟩)

theorem seedQuoteLoop_page_edges (fromIso : String → Option Timestamp)
    (now : Timestamp) (seed_uri : String) (mqp cap : Nat) (page : QuotePage)
    (rest : List (Option QuotePage)) (pf : Nat)
    (acc : List (String × Post)) (edges : List Edge) (h : pf < mqp) :
    ∃ L, (seedQuoteLoop fromIso now seed_uri mqp cap (some page :: rest) pf
        acc edges).2 =
      edges ++ (extract_quote_edges fromIso now page.posts seed_uri).2 ++
        L := by
  rw [seedQuoteLoop]
  rw [if_pos h]
  dsimp only
  by_cases hcur : page.cursor = true
  · rw [if_neg (by simp [hcur])]
    by_cases hbud : page.budgetLow = true
    · rw [if_pos hbud]
      exact ⟨[], by simp⟩
    · rw [if_neg hbud]
      by_cases hcap :
          (seedInsertQuotePosts cap acc
            (extract_quote_edges fromIso now page.posts seed_uri).1).length ≥
            cap
      · rw [if_pos hcap]
        exact ⟨[], by simp⟩
      · rw [if_neg hcap]
        exact seedQuoteLoop_edges_extend fromIso now seed_uri mqp cap rest
          (pf + 1) _ _
  · rw [if_pos (by simp [hcur])]
    exact ⟨[], by simp⟩

theorem seed_mode_posts_le (inputs : SeedModeInputs)
    (fromIso : String → Option Timestamp) (now : Timestamp)
    (threadFetch : Option ThreadNode) (pages : List (Option QuotePage)) :
    (seed_mode inputs fromIso now threadFetch pages).1.length ≤
      inputs.max_nodes := by
  rw [seed_mode]
  dsimp only
  split_ifs <;> simp

/-- Claim C7: in seed-mode quote expansion, (1) the per-page insertion loop
absorbs exactly a prefix of the page's quote posts — each insertion happens
only while the accumulator size is below the node cap, checked before every
post, and the loop stops early exactly when the cap has been reached (so a
page may be partially absorbed); (2) whenever a page is processed, all of
that page's QUOTE edges are appended to the edge accumulator regardless of
the cap; and (3) the post list `seed_mode` returns has at most `max_nodes`
entries. -/
theorem seed_quote_cap_behavior :
    (∀ (cap : Nat) (acc : List (String × Post)) (qposts : List Post),
      ∃ n, n ≤ qposts.length ∧
        seedInsertQuotePosts cap acc qposts =
          (qposts.take n).foldl (fun d p => dictSet d p.uri p) acc ∧
        (∀ i < n,
          ((qposts.take i).foldl (fun d p => dictSet d p.uri p) acc).length <
            cap) ∧
        (n = qposts.length ∨
          ((qposts.take n).foldl (fun d p => dictSet d p.uri p) acc).length ≥
            cap)) ∧
    (∀ (fromIso : String → Option Timestamp) (now : Timestamp)
        (seed_uri : String) (mqp cap : Nat) (page : QuotePage)
        (rest : List (Option QuotePage)) (pf : Nat)
        (acc : List (String × Post)) (edges : List Edge),
      pf < mqp →
      ∃ L, (seedQuoteLoop fromIso now seed_uri mqp cap (some page :: rest) pf
          acc edges).2 =
        edges ++ (extract_quote_edges fromIso now page.posts seed_uri).2 ++
          L) ∧
    (∀ (inputs : SeedModeInputs) (fromIso : String → Option Timestamp)
        (now : Timestamp) (threadFetch : Option ThreadNode)
        (pages : List (Option QuotePage)),
      (seed_mode inputs fromIso now threadFetch pages).1.length ≤
        inputs.max_nodes) :=
  ⟨seedInsertQuotePosts_spec,
    fun fromIso now seed_uri mqp cap page rest pf acc edges h =>
      seedQuoteLoop_page_edges fromIso now seed_uri mqp cap page rest pf acc
        edges h,
    seed_mode_posts_le⟩

/-- Witness for claim C7 on the concrete fixtures: processing the single
quote page appends all its edges, the insertion loop on two posts under a
cap of 2 absorbs a prefix, and the concrete seed-mode run returns at most
`max_nodes` posts. -/
theorem seed_quote_cap_behavior_witness :
    (∃ n, n ≤ ([postA1, postB] : List Post).length ∧
      seedInsertQuotePosts 2 [] [postA1, postB] =
        (([postA1, postB] : List Post).take n).foldl
          (fun d p => dictSet d p.uri p) [] ∧
      (∀ i < n,
        ((([postA1, postB] : List Post).take i).foldl
          (fun d p => dictSet d p.uri p) []).length < 2) ∧
      (n = ([postA1, postB] : List Post).length ∨
        ((([postA1, postB] : List Post).take n).foldl
          (fun d p => dictSet d p.uri p) []).length ≥ 2)) ∧
    (∃ L, (seedQuoteLoop testFromIso 7 "at://seed" 3 500
        [some dupQuotePage] 0 [] []).2 =
      [] ++ (extract_quote_edges testFromIso 7 dupQuotePage.posts
        "at://seed").2 ++ L) ∧
    (seed_mode seedInputs testFromIso 7 (some seedThreadTree)
        [some dupQuotePage]).1.length ≤ seedInputs.max_nodes :=
  ⟨seed_quote_cap_behavior.1 2 [] [postA1, postB],
    seed_quote_cap_behavior.2.1 testFromIso 7 "at://seed" 3 500 dupQuotePage
      [] 0 [] [] (by decide),
    seed_quote_cap_behavior.2.2 seedInputs testFromIso 7 (some seedThreadTree)
      [some dupQuotePage]⟩

end SourceGraph
